import Mathlib

/-!
A shallow embedding of the `simple-stock-market` repository
(`src/models/stock.py`, `src/models/trade.py`, `src/models/common.py`,
`src/stock_market.py`) and proofs about it.

Modelling conventions:
* Python numbers (ints and floats) are modelled as `ℚ` (quantities as `ℤ`);
  prices, dividends and par values as `ℚ`.
* Python `Optional` fields are `Option` values; Python truthiness of a
  number (`if self.last_dividend`, `not self.fixed_dividend`) is modelled
  explicitly: `none` and `some 0` are both falsy.
* Exceptions are modelled with `Except Err` or a `(state, Option Err)`
  result pair for the mutating market operations, so that "the raise
  happens before the append" is visible in the returned state.
* Timestamps are rational numbers of seconds; `datetime.now` is an
  explicit `now` parameter (the 15-minute window is the constant 900 s).
* `math.log` / `math.exp` are `Real.log` / `Real.exp`; the domain error
  `math.log x` raises for `x ≤ 0` is modelled by an explicit branch,
  because the Python code catches it and returns 0.
-/

/-- The exception classes the code can raise: `ValueError`
(InvalidArgument-class) and `TypeError` (from arithmetic on `None`). -/
inductive Err where
  | valueError
  | typeError
deriving DecidableEq, Repr

/-- `models/common.py`: `TradeType` enum. -/
inductive TradeType where
  | BUY
  | SELL
deriving DecidableEq, Repr

/-- `models/common.py`: `StockType` enum. -/
inductive StockType where
  | COMMON
  | PREFERRED
deriving DecidableEq, Repr

/-- `models/stock.py`: the two concrete stock variants.  `CommonStock`
has `symbol`, optional `last_dividend` and optional `par_value`;
`PreferredStock` additionally has an optional `fixed_dividend`. -/
inductive Stock where
  | common (symbol : String) (last_dividend : Option ℚ) (par_value : Option ℚ)
  | preferred (symbol : String) (last_dividend : Option ℚ) (par_value : Option ℚ)
      (fixed_dividend : Option ℚ)
deriving DecidableEq, Repr

/-- The `symbol` attribute, shared by both variants. -/
def Stock.symbol : Stock → String
  | .common s _ _ => s
  | .preferred s _ _ _ => s

/-- The `fixed_dividend` attribute (`none` on a common stock). -/
def Stock.fixed_dividend : Stock → Option ℚ
  | .common _ _ _ => none
  | .preferred _ _ _ fd => fd

/-- Python truthiness of an optional number: `None` and `0` are falsy. -/
def optTruthy (o : Option ℚ) : Bool :=
  match o with
  | none => false
  | some x => decide (x ≠ 0)

/-- `CommonStock.calculate_dividend_yield` / `PreferredStock.calculate_dividend_yield`
(`models/stock.py` lines 58-82 and 95-117).

Common: raises `ValueError` when `market_price ≤ 0`; otherwise returns
`last_dividend / market_price if self.last_dividend else 0` — note the
Python truthiness test, so `None` and `0` both yield 0.

Preferred: raises `ValueError` when `market_price ≤ 0 or not
self.fixed_dividend` (so `None` and `0` both raise); otherwise evaluates
`(self.fixed_dividend * self.par_value) / market_price`, which raises a
`TypeError` when `par_value` is `None` (float times `None`). -/
def Stock.calculate_dividend_yield : Stock → ℚ → Except Err ℚ
  | .common _ ld _, market_price =>
    if market_price ≤ 0 then .error .valueError
    else .ok (if optTruthy ld then ld.getD 0 / market_price else 0)
  | .preferred _ _ pv fd, market_price =>
    if market_price ≤ 0 ∨ ¬ optTruthy fd then .error .valueError
    else
      match pv with
      | none => .error .typeError
      | some p => .ok (fd.getD 0 * p / market_price)

/-- `Stock.calculate_pe_ratio` (`models/stock.py` lines 20-38): computes
the dividend yield inside a `try`; returns 0 when the yield is exactly 0
or when computing it raised any exception; otherwise returns
`market_price / dividend_yield`.  The model is total: no error escapes. -/
def Stock.calculate_pe_ratio (s : Stock) (market_price : ℚ) : ℚ :=
  match s.calculate_dividend_yield market_price with
  | .error _ => 0
  | .ok dy => if dy = 0 then 0 else market_price / dy

/-- `models/trade.py`: the `Trade` dataclass.  `timestamp` is seconds. -/
structure Trade where
  stock : Stock
  quantity : ℤ
  type : TradeType
  traded_price : ℚ
  timestamp : ℚ
deriving DecidableEq, Repr

/-- `Trade.__post_init__` (`models/trade.py` lines 26-43): construction
fails with `ValueError` when `quantity ≤ 0` or `traded_price ≤ 0`. -/
def mkTrade (stock : Stock) (quantity : ℤ) (type : TradeType)
    (traded_price : ℚ) (timestamp : ℚ) : Except Err Trade :=
  if quantity ≤ 0 then .error .valueError
  else if traded_price ≤ 0 then .error .valueError
  else .ok ⟨stock, quantity, type, traded_price, timestamp⟩

/-- `stock_market.py`: the `StockMarket` state — the trade ledger and
the stock catalog (the Python `dict` modelled as an association list
with unique keys and overwrite-on-insert). -/
structure StockMarket where
  trades : List Trade
  stocks : List (String × Stock)
deriving DecidableEq, Repr

/-- The empty market built by `StockMarket.__init__`. -/
def StockMarket.empty : StockMarket := ⟨[], []⟩

/-- `self.stocks.get(symbol)`: dictionary lookup. -/
def lookupStock : List (String × Stock) → String → Option Stock
  | [], _ => none
  | (k, v) :: rest, sym => if k = sym then some v else lookupStock rest sym

/-- `self.stocks[symbol] = stock`: dictionary insert, overwriting any
prior entry with the same key. -/
def insertStock : List (String × Stock) → String → Stock → List (String × Stock)
  | [], sym, st => [(sym, st)]
  | (k, v) :: rest, sym, st =>
    if k = sym then (k, st) :: rest else (k, v) :: insertStock rest sym st

/-- `StockMarket.record_trade` (`stock_market.py` lines 31-58): looks the
symbol up in the catalog (`if not stock` is `stock is None`, a dataclass
instance being always truthy), raises `ValueError` if absent, then
constructs a `Trade` (whose validator may raise) and only then appends it
to the ledger.  The result pair is (state after the call, raised error if
any): on every error path the state is the unchanged `m`. -/
def StockMarket.record_trade (m : StockMarket) (stock_symbol : String)
    (quantity : ℤ) (trade_type : TradeType) (price : ℚ) (now : ℚ) :
    StockMarket × Option Err :=
  match lookupStock m.stocks stock_symbol with
  | none => (m, some .valueError)
  | some stock =>
    match mkTrade stock quantity trade_type price now with
    | .error e => (m, some e)
    | .ok t => ({ m with trades := m.trades ++ [t] }, none)

/-- The filter used by `calculate_volume_weighted_stock_price`:
`trade.stock.symbol == stock_symbol and trade.timestamp > time_15_minutes_ago`
with `time_15_minutes_ago = now - 15 minutes` (900 seconds). -/
def relevantTrade (stock_symbol : String) (now : ℚ) (t : Trade) : Bool :=
  decide (t.stock.symbol = stock_symbol) && decide (now - 900 < t.timestamp)

/-- `StockMarket.calculate_volume_weighted_stock_price` (`stock_market.py`
lines 60-83): loops over the relevant trades accumulating
`total_product += price * quantity` and `total_quantity += quantity`,
then returns `total_product / total_quantity if total_quantity else 0`.
The Python `try` catches every exception and returns 0; the model is a
total function. -/
def StockMarket.calculate_volume_weighted_stock_price (m : StockMarket)
    (stock_symbol : String) (now : ℚ) : ℚ :=
  let relevant := m.trades.filter (relevantTrade stock_symbol now)
  let acc := relevant.foldl
    (fun (a : ℚ × ℤ) t => (a.1 + t.traded_price * (t.quantity : ℚ), a.2 + t.quantity))
    (0, 0)
  if acc.2 ≠ 0 then acc.1 / (acc.2 : ℚ) else 0

/-- `sum(trade.quantity for trade in trades)`. -/
def totalQuantity (ts : List Trade) : ℤ := (ts.map (fun t => t.quantity)).sum

/-- The specification-side volume weighted price, written from the words of the spec: filter the ledger to trades of the symbol strictly newer than
now − 15 minutes; `Σ(price×quantity) / Σ(quantity)` over the filtered
set; 0 if the filtered set is empty. -/
def volume_weighted_price_spec (m : StockMarket) (stock_symbol : String)
    (now : ℚ) : ℚ :=
  let F := m.trades.filter (relevantTrade stock_symbol now)
  if F = [] then 0
  else (F.map (fun t => t.traded_price * (t.quantity : ℚ))).sum
    / ((totalQuantity F : ℤ) : ℚ)

/-- One input record for `get_stocks`: a JSON-like dict.  `type` is
`none` when the key is missing (`data.get("type")` returning `None`);
the numeric fields hold `none` when the stored value is `None`. -/
structure StockRecord where
  type : Option String
  symbol : String
  last_dividend : Option ℚ
  par_value : Option ℚ
  fixed_dividend : Option ℚ
deriving DecidableEq, Repr

/-- ASCII upper-casing of one character, as Python `str.upper` acts on
the letters that can ever match COMMON or PREFERRED. -/
def charUpper (c : Char) : Char :=
  if 97 ≤ c.toNat ∧ c.toNat ≤ 122 then Char.ofNat (c.toNat - 32) else c

/-- ASCII upper-casing of a string (`data["type"].upper()`). -/
def strUpper (s : String) : String := ⟨s.data.map charUpper⟩

/-- The type-tag resolution in `get_stocks` (`stock_market.py` line 119):
`StockType[data["type"].upper()]` when the `type` value is a string whose
upper-casing is a member of `StockType`, else `None`. -/
def resolveStockType (o : Option String) : Option StockType :=
  match o with
  | none => none
  | some s =>
    if strUpper s = "COMMON" then some .COMMON
    else if strUpper s = "PREFERRED" then some .PREFERRED
    else none

/-- The stock constructed by `get_stocks` for one record once its type
tag resolved. -/
def stockOfRecord (ty : StockType) (r : StockRecord) : Stock :=
  match ty with
  | .COMMON => .common r.symbol r.last_dividend r.par_value
  | .PREFERRED => .preferred r.symbol r.last_dividend r.par_value r.fixed_dividend

/-- `StockMarket.get_stocks` (`stock_market.py` lines 104-137): processes
the records sequentially; on an unknown or missing type raises
`ValueError` immediately (previously inserted records stay in the
catalog — the Python loop mutated `self.stocks` in place and the raise
propagates); on a recognized type inserts the constructed stock,
overwriting any prior entry with the same symbol.  The result pair is
(state after the call, raised error if any). -/
def StockMarket.get_stocks (m : StockMarket) :
    List StockRecord → StockMarket × Option Err
  | [] => (m, none)
  | r :: rs =>
    match resolveStockType r.type with
    | none => (m, some .valueError)
    | some ty =>
      StockMarket.get_stocks
        { m with stocks := insertStock m.stocks r.symbol (stockOfRecord ty r) } rs

/-- `sum(log(trade.traded_price) * trade.quantity for trade in trades)`. -/
noncomputable def logSum (ts : List Trade) : ℝ :=
  (ts.map (fun t => Real.log (t.traded_price : ℝ) * (t.quantity : ℝ))).sum

/-- `StockMarket.calculate_gbce_all_share_index` (`stock_market.py`
lines 85-102): returns 0 on an empty ledger; computes
`log_sum = Σ log(price)·quantity` (where `math.log` raises on a
non-positive price — caught by the enclosing `try`, which returns 0,
hence the explicit branch); then `exp(log_sum / total_quantity)` when
`total_quantity` is non-zero, else 0. -/
noncomputable def StockMarket.calculate_gbce_all_share_index (m : StockMarket) : ℝ :=
  if m.trades = [] then 0
  else if m.trades.any (fun t => decide (t.traded_price ≤ 0)) then 0
  else if totalQuantity m.trades ≠ 0 then
    Real.exp (logSum m.trades / ((totalQuantity m.trades : ℤ) : ℝ))
  else 0

/-- The quantity-weighted geometric mean of the traded prices, written
from the words of the spec: `(∏ priceᵢ^quantityᵢ) ^ (1 / Σ quantityᵢ)`. -/
noncomputable def weightedGeometricMean (ts : List Trade) : ℝ :=
  ((ts.map (fun t => (t.traded_price : ℝ) ^ t.quantity)).prod)
    ^ (((totalQuantity ts : ℤ) : ℝ))⁻¹

/-- The market states reachable from the empty market through any
sequence of `get_stocks` and `record_trade` calls (the state resulting from each call, whether the call raised or not). -/
inductive Reachable : StockMarket → Prop
  | init : Reachable .empty
  | load (m : StockMarket) (rs : List StockRecord) :
      Reachable m → Reachable (m.get_stocks rs).1
  | trade (m : StockMarket) (sym : String) (q : ℤ) (ty : TradeType) (p now : ℚ) :
      Reachable m → Reachable (m.record_trade sym q ty p now).1

/-- Claim C4: for every Common stock, `calculate_dividend_yield` fails
with a `ValueError` exactly when `market_price ≤ 0`; for a positive
market price it returns `last_dividend / market_price`, where an absent
`last_dividend` counts as 0 (and `last_dividend = 0` gives the same
value `0 / market_price = 0`, so the truthiness branch agrees with the
formula). -/
theorem common_dividend_yield_spec (sym : String) (ld pv : Option ℚ) (mp : ℚ) :
    (mp ≤ 0 →
      (Stock.common sym ld pv).calculate_dividend_yield mp = .error .valueError) ∧
    (0 < mp →
      (Stock.common sym ld pv).calculate_dividend_yield mp = .ok (ld.getD 0 / mp)) := by
  constructor
  · intro h
    simp [Stock.calculate_dividend_yield, h]
  · intro h
    simp only [Stock.calculate_dividend_yield]
    rw [if_neg (not_le.mpr h)]
    cases ld with
    | none => simp [optTruthy]
    | some d =>
      by_cases hd : d = 0
      · simp [optTruthy, hd]
      · simp [optTruthy, hd]

/-- Witness for C4 at the example of the spec: a Common stock with
`last_dividend = 8` has dividend yield `8 / 100` at market price 100. -/
theorem common_dividend_yield_spec_witness :
    (Stock.common "TEA" (some 8) (some 100)).calculate_dividend_yield 100 =
      .ok ((some (8 : ℚ)).getD 0 / 100) :=
  (common_dividend_yield_spec "TEA" (some 8) (some 100) 100).2 (by norm_num)

/-- Counterexample to claim C5 as stated: for the Preferred stock with
`fixed_dividend` set to exactly 0 (so not unset) and `par_value = 100`,
at market price 100 (so not `≤ 0`), the claim says the call returns
`(0 × 100) / 100 = 0`, but the code raises a `ValueError` because the
Python guard `not self.fixed_dividend` treats 0 as falsy. -/
theorem preferred_dividend_yield_counterexample :
    (0 : ℚ) < 100 ∧
    (Stock.preferred "GIN" (some 8) (some 100) (some 0)).fixed_dividend ≠ none ∧
    (Stock.preferred "GIN" (some 8) (some 100) (some 0)).calculate_dividend_yield 100 =
      .error .valueError := by
  refine ⟨by norm_num, by simp [Stock.fixed_dividend], ?_⟩
  simp [Stock.calculate_dividend_yield, optTruthy]

/-- Claim C5 (amended): for every Preferred stock,
`calculate_dividend_yield` fails with a `ValueError` when
`market_price ≤ 0` or when `fixed_dividend` is unset or set to exactly
0; otherwise (non-zero `fixed_dividend = f`, positive market price) it
returns `(f × par_value) / market_price` when `par_value` is set and
fails with a `TypeError` (not a `ValueError`) when `par_value` is
unset, since the code multiplies the dividend by `None`. -/
theorem preferred_dividend_yield_spec (sym : String) (ld pv fd : Option ℚ) (mp : ℚ) :
    (mp ≤ 0 ∨ fd = none ∨ fd = some 0 →
      (Stock.preferred sym ld pv fd).calculate_dividend_yield mp = .error .valueError) ∧
    (∀ f, fd = some f → f ≠ 0 → 0 < mp →
      (Stock.preferred sym ld pv fd).calculate_dividend_yield mp =
        match pv with
        | some p => .ok (f * p / mp)
        | none => .error .typeError) := by
  constructor
  · intro h
    simp only [Stock.calculate_dividend_yield]
    rw [if_pos]
    rcases h with h | h | h
    · exact Or.inl h
    · refine Or.inr ?_
      simp [h, optTruthy]
    · refine Or.inr ?_
      simp [h, optTruthy]
  · intro f hf hf0 hmp
    simp only [Stock.calculate_dividend_yield]
    rw [if_neg]
    · cases pv with
      | none => simp [hf]
      | some p => simp [hf]
    · push_neg
      refine ⟨hmp, ?_⟩
      simp [hf, optTruthy, hf0]

/-- Witness for the amended C5 at the example of the spec: a Preferred
stock with `fixed_dividend = 0.02` and `par_value = 100` has dividend
yield `(0.02 × 100) / 100` at market price 100. -/
theorem preferred_dividend_yield_spec_witness :
    (Stock.preferred "GIN" (some 8) (some 100) (some (2/100))).calculate_dividend_yield 100 =
      .ok ((2/100 : ℚ) * 100 / 100) :=
  (preferred_dividend_yield_spec "GIN" (some 8) (some 100) (some (2/100)) 100).2
    (2/100) rfl (by norm_num) (by norm_num)

/-- Claim C10: a Preferred stock whose `fixed_dividend` is present but
exactly 0 raises a `ValueError` for every positive market price (the
implementation treats a zero `fixed_dividend` like an unset one),
while a Common stock whose `last_dividend` is present but exactly 0
returns yield 0 for every positive market price. -/
theorem zero_dividend_asymmetry (sym : String) (ld pv pv2 : Option ℚ) (mp : ℚ)
    (h : 0 < mp) :
    (Stock.preferred sym ld pv (some 0)).calculate_dividend_yield mp =
      .error .valueError ∧
    (Stock.common sym (some 0) pv2).calculate_dividend_yield mp = .ok 0 := by
  constructor
  · simp only [Stock.calculate_dividend_yield]
    rw [if_pos]
    exact Or.inr (by simp [optTruthy])
  · simp only [Stock.calculate_dividend_yield]
    rw [if_neg (not_le.mpr h)]
    simp [optTruthy]

/-- Witness for C10 at market price 100. -/
theorem zero_dividend_asymmetry_witness :
    (Stock.preferred "GIN" (some 8) (some 100) (some 0)).calculate_dividend_yield 100 =
      .error .valueError ∧
    (Stock.common "TEA" (some 0) (some 100)).calculate_dividend_yield 100 = .ok 0 :=
  zero_dividend_asymmetry "GIN" (some 8) (some 100) (some 100) 100 (by norm_num)

/-- Claim C3: for every stock and market price, `calculate_pe_ratio`
returns `market_price / dividend_yield` when the dividend yield
computation succeeds with a non-zero value, and returns 0 both when the
dividend yield is exactly 0 and when computing it raises any error; the
function is total, so no error propagates to the caller. -/
theorem pe_ratio_policy (s : Stock) (mp : ℚ) :
    (∀ v, s.calculate_dividend_yield mp = .ok v → v ≠ 0 →
      s.calculate_pe_ratio mp = mp / v) ∧
    (s.calculate_dividend_yield mp = .ok 0 → s.calculate_pe_ratio mp = 0) ∧
    (∀ e, s.calculate_dividend_yield mp = .error e → s.calculate_pe_ratio mp = 0) := by
  refine ⟨?_, ?_, ?_⟩
  · intro v hv hv0
    rw [Stock.calculate_pe_ratio, hv]
    simp [hv0]
  · intro hv
    rw [Stock.calculate_pe_ratio, hv]
    simp
  · intro e he
    rw [Stock.calculate_pe_ratio, he]

/-- Witness for C3: the Common stock with `last_dividend = 8` has PE
ratio `100 / (8 / 100)` at market price 100 (spec example 1250). -/
theorem pe_ratio_policy_witness :
    (Stock.common "TEA" (some 8) (some 100)).calculate_pe_ratio 100 =
      100 / ((8 : ℚ) / 100) :=
  (pe_ratio_policy (Stock.common "TEA" (some 8) (some 100)) 100).1 (8/100)
    (by simp [Stock.calculate_dividend_yield, optTruthy])
    (by norm_num)

/-- Claim C6: `record_trade` fails with a `ValueError` when the symbol
is absent from the catalog, or when `quantity ≤ 0`, or when
`price ≤ 0`, leaving the state unchanged; otherwise it appends exactly
one `Trade` referencing the stock found in the catalog to the end of
the ledger and leaves the catalog unchanged. -/
theorem record_trade_spec (m : StockMarket) (sym : String) (q : ℤ)
    (ty : TradeType) (p now : ℚ) :
    (lookupStock m.stocks sym = none ∨ q ≤ 0 ∨ p ≤ 0 →
      m.record_trade sym q ty p now = (m, some .valueError)) ∧
    (∀ st, lookupStock m.stocks sym = some st → 0 < q → 0 < p →
      m.record_trade sym q ty p now =
        ({ trades := m.trades ++ [⟨st, q, ty, p, now⟩], stocks := m.stocks }, none)) := by
  constructor
  · intro h
    rcases h with h | h | h
    · simp [StockMarket.record_trade, h]
    · cases hl : lookupStock m.stocks sym with
      | none => simp [StockMarket.record_trade, hl]
      | some st => simp [StockMarket.record_trade, hl, mkTrade, h]
    · cases hl : lookupStock m.stocks sym with
      | none => simp [StockMarket.record_trade, hl]
      | some st =>
        simp only [StockMarket.record_trade, hl, mkTrade]
        by_cases hq : q ≤ 0
        · simp [hq]
        · simp [hq, h]
  · intro st hl hq hp
    simp [StockMarket.record_trade, hl, mkTrade, not_le.mpr hq, not_le.mpr hp]

/-- Witness for C6: recording a valid trade on a catalog containing the
symbol appends exactly that trade. -/
theorem record_trade_spec_witness :
    StockMarket.record_trade ⟨[], [("TEA", Stock.common "TEA" (some 8) (some 100))]⟩
        "TEA" 100 .BUY 100 7 =
      ({ trades := [⟨Stock.common "TEA" (some 8) (some 100), 100, .BUY, 100, 7⟩],
         stocks := [("TEA", Stock.common "TEA" (some 8) (some 100))] }, none) :=
  (record_trade_spec ⟨[], [("TEA", Stock.common "TEA" (some 8) (some 100))]⟩
      "TEA" 100 .BUY 100 7).2
    (Stock.common "TEA" (some 8) (some 100)) (by decide) (by norm_num) (by norm_num)

/-- Claim C9: atomicity of `record_trade` — whenever the call raises
(the second component of the result carries an error), the market state
it leaves behind is exactly the state it started from: nothing was
appended to the ledger and the catalog was not modified. -/
theorem record_trade_atomic (m : StockMarket) (sym : String) (q : ℤ)
    (ty : TradeType) (p now : ℚ) (e : Err)
    (h : (m.record_trade sym q ty p now).2 = some e) :
    (m.record_trade sym q ty p now).1 = m := by
  cases hl : lookupStock m.stocks sym with
  | none => simp [StockMarket.record_trade, hl]
  | some st =>
    cases ht : mkTrade st q ty p now with
    | error e2 => simp [StockMarket.record_trade, hl, ht]
    | ok t =>
      exfalso
      simp [StockMarket.record_trade, hl, ht] at h

/-- Witness for C9: a failing `record_trade` on the empty market (the
symbol is not in the catalog) leaves the empty market unchanged. -/
theorem record_trade_atomic_witness :
    (StockMarket.empty.record_trade "TEA" 1 .BUY 1 0).1 = StockMarket.empty :=
  record_trade_atomic StockMarket.empty "TEA" 1 .BUY 1 0 .valueError (by decide)

/-- Looking a symbol up right after inserting a stock under that symbol
finds exactly that stock: insertion overwrites any prior entry. -/
theorem lookupStock_insertStock (l : List (String × Stock)) (sym : String) (st : Stock) :
    lookupStock (insertStock l sym st) sym = some st := by
  induction l with
  | nil => simp [insertStock, lookupStock]
  | cons kv rest ih =>
    obtain ⟨k, v⟩ := kv
    by_cases hk : k = sym
    · simp [insertStock, lookupStock, hk]
    · simp [insertStock, lookupStock, hk, ih]

/-- Claim C7: `get_stocks` processes its records sequentially.  The
empty list changes nothing and raises nothing; a non-empty list first
resolves the type tag of the head record by a case-insensitive match
against COMMON / PREFERRED: on an unknown or missing tag it stops with
a `ValueError` leaving the state as it stood (all previously processed
records of the same call already applied, the failing record not
added); on a recognized tag it continues on the state with the
constructed stock inserted, and insertion overwrites any prior catalog
entry with the same symbol. -/
theorem get_stocks_spec (m : StockMarket) (r : StockRecord) (rs : List StockRecord) :
    (StockMarket.get_stocks m [] = (m, none)) ∧
    (StockMarket.get_stocks m (r :: rs) =
      match resolveStockType r.type with
      | none => (m, some .valueError)
      | some ty =>
        StockMarket.get_stocks
          { m with stocks := insertStock m.stocks r.symbol (stockOfRecord ty r) } rs) ∧
    (∀ l sym st, lookupStock (insertStock l sym st) sym = some st) ∧
    (resolveStockType (some "common") = some .COMMON ∧
      resolveStockType (some "Preferred") = some .PREFERRED ∧
      resolveStockType (some "bond") = none ∧
      resolveStockType none = none) := by
  refine ⟨rfl, rfl, fun l sym st => lookupStock_insertStock l sym st, ?_, ?_, ?_, rfl⟩
  · decide
  · decide
  · decide

/-- Rolling out the volume weighted price loop: folding the accumulator
pair over a list of trades adds the sum of `price × quantity` to the
first component and the sum of `quantity` to the second. -/
theorem vwsp_foldl (l : List Trade) (a : ℚ) (b : ℤ) :
    l.foldl
        (fun (acc : ℚ × ℤ) t =>
          (acc.1 + t.traded_price * (t.quantity : ℚ), acc.2 + t.quantity))
        (a, b) =
      (a + (l.map (fun t => t.traded_price * (t.quantity : ℚ))).sum,
        b + totalQuantity l) := by
  induction l generalizing a b with
  | nil => simp [totalQuantity]
  | cons t ts ih =>
    simp only [List.foldl_cons, ih, List.map_cons, List.sum_cons, totalQuantity,
      Prod.mk.injEq]
    constructor
    · ring
    · ring

/-- Claim C1: `calculate_volume_weighted_stock_price` equals the
specification formula — filter the ledger to exactly the trades of the
given symbol whose timestamp is strictly newer than now minus 15
minutes, and return `Σ(price×quantity) / Σ(quantity)` over the filtered
set, 0 when the filtered set is empty — for every market state, symbol
and clock reading; the membership clause spells out that the filter
keeps exactly the claimed trades.  Both sides are total functions (the
code catches every exception; the only degenerate case, a non-empty
filtered set with zero total quantity, is division by zero, which both
the code and the model map to 0). -/
theorem vwsp_spec (m : StockMarket) (sym : String) (now : ℚ) :
    m.calculate_volume_weighted_stock_price sym now =
      volume_weighted_price_spec m sym now ∧
    (∀ t : Trade, t ∈ m.trades.filter (relevantTrade sym now) ↔
      t ∈ m.trades ∧ t.stock.symbol = sym ∧ now - 900 < t.timestamp) := by
  constructor
  · rw [StockMarket.calculate_volume_weighted_stock_price, volume_weighted_price_spec]
    simp only [vwsp_foldl, zero_add]
    by_cases hF : m.trades.filter (relevantTrade sym now) = []
    · simp [hF, totalQuantity]
    · by_cases hQ : totalQuantity (m.trades.filter (relevantTrade sym now)) = 0
      · simp [hF, hQ]
      · simp [hF, hQ]
  · intro t
    simp [List.mem_filter, relevantTrade]

/-- `get_stocks` never touches the trade ledger. -/
theorem get_stocks_trades (rs : List StockRecord) (m : StockMarket) :
    (m.get_stocks rs).1.trades = m.trades := by
  induction rs generalizing m with
  | nil => rfl
  | cons r rs ih =>
    rw [StockMarket.get_stocks]
    cases resolveStockType r.type with
    | none => rfl
    | some ty => exact ih _

/-- A successfully constructed `Trade` passed its validator: its
quantity and traded price are positive. -/
theorem mkTrade_ok_valid (stock : Stock) (q : ℤ) (ty : TradeType) (p ts : ℚ)
    (t : Trade) (h : mkTrade stock q ty p ts = .ok t) :
    0 < t.quantity ∧ 0 < t.traded_price := by
  rw [mkTrade] at h
  by_cases hq : q ≤ 0
  · rw [if_pos hq] at h
    exact absurd h (by simp)
  · rw [if_neg hq] at h
    by_cases hp : p ≤ 0
    · rw [if_pos hp] at h
      exact absurd h (by simp)
    · rw [if_neg hp] at h
      cases h
      exact ⟨not_le.mp hq, not_le.mp hp⟩

/-- Claim C8: in every market state reachable from the empty market
through any sequence of `get_stocks` and `record_trade` calls, every
trade in the ledger has positive quantity and positive traded price;
consequently the divisor `Σ quantity` of the aggregate calculations is
positive on every non-empty filtered subset of the ledger. -/
theorem reachable_trades_valid (m : StockMarket) (h : Reachable m) :
    (∀ t ∈ m.trades, 0 < t.quantity ∧ 0 < t.traded_price) ∧
    (∀ pr : Trade → Bool, m.trades.filter pr ≠ [] →
      0 < totalQuantity (m.trades.filter pr)) := by
  have main : ∀ t ∈ m.trades, 0 < t.quantity ∧ 0 < t.traded_price := by
    induction h with
    | init => simp [StockMarket.empty]
    | load m rs hr ih =>
      rw [get_stocks_trades]
      exact ih
    | trade m sym q ty p now hr ih =>
      cases hl : lookupStock m.stocks sym with
      | none =>
        simp only [StockMarket.record_trade, hl]
        exact ih
      | some st =>
        cases ht : mkTrade st q ty p now with
        | error e =>
          simp only [StockMarket.record_trade, hl, ht]
          exact ih
        | ok t =>
          simp only [StockMarket.record_trade, hl, ht]
          intro u hu
          rcases List.mem_append.mp hu with hu | hu
          · exact ih u hu
          · rcases List.mem_singleton.mp hu with rfl
            exact mkTrade_ok_valid st q ty p now u ht
  refine ⟨main, ?_⟩
  intro pr hne
  rw [totalQuantity]
  apply List.sum_pos
  · intro x hx
    rcases List.mem_map.mp hx with ⟨t, ht, rfl⟩
    exact (main t (List.mem_of_mem_filter ht)).1
  · intro hmap
    exact hne (List.map_eq_nil_iff.mp hmap)

/-- A trivially true trade predicate, used to instantiate the filter of
the C8 invariant at a concrete reachable state. -/
def anyTrade : Trade → Bool := fun _ => true

/-- Witness for C8: load one common stock into the empty market, record
one trade of quantity 100 on it; the filtered ledger (filter keeping
everything) has positive total quantity. -/
theorem reachable_trades_valid_witness :
    0 < totalQuantity
      (((((StockMarket.empty.get_stocks
            [⟨some "common", "TEA", some 8, some 100, none⟩]).1).record_trade
          "TEA" 100 .BUY 100 7).1).trades.filter anyTrade) :=
  (reachable_trades_valid _
      (Reachable.trade _ "TEA" 100 .BUY 100 7
        (Reachable.load _ [⟨some "common", "TEA", some 8, some 100, none⟩]
          Reachable.init))).2
    anyTrade (by decide)

/-- The logarithm of a product of positive reals is the sum of the
logarithms, list version. -/
theorem log_list_prod (l : List ℝ) (h : ∀ x ∈ l, 0 < x) :
    Real.log l.prod = (l.map Real.log).sum := by
  induction l with
  | nil => simp
  | cons x xs ih =>
    have hx : 0 < x := h x (by simp)
    have hxs : ∀ y ∈ xs, 0 < y := fun y hy => h y (by simp [hy])
    have hprod : 0 < xs.prod := List.prod_pos hxs
    rw [List.prod_cons, List.map_cons, List.sum_cons,
      Real.log_mul (ne_of_gt hx) (ne_of_gt hprod), ih hxs]

/-- The logarithm of `∏ priceᵢ^quantityᵢ` over a list of trades with
positive prices is exactly the `log_sum` the code accumulates. -/
theorem log_prod_pows (ts : List Trade) (h : ∀ t ∈ ts, 0 < t.traded_price) :
    Real.log ((ts.map (fun t => (t.traded_price : ℝ) ^ t.quantity)).prod) =
      logSum ts := by
  rw [log_list_prod]
  · rw [logSum, List.map_map]
    apply congrArg List.sum
    apply List.map_congr_left
    intro t ht
    have hp : (0 : ℝ) < (t.traded_price : ℝ) := by exact_mod_cast h t ht
    simp [Function.comp, Real.log_zpow, mul_comm]
  · intro x hx
    rcases List.mem_map.mp hx with ⟨t, ht, rfl⟩
    have hp : (0 : ℝ) < (t.traded_price : ℝ) := by exact_mod_cast h t ht
    exact zpow_pos hp _

/-- Claim C2: `calculate_gbce_all_share_index` works over the entire
ledger with no time filter; it returns 0 on an empty ledger and when
the total quantity is 0, and (being a total function, with the
`math.log` domain error suppressed to 0 by an explicit branch) never
raises.  When every traded price is positive and the total quantity is
non-zero it computes `exp( Σ(ln(price)×quantity) / Σ(quantity) )`,
which is the quantity-weighted geometric mean
`(∏ priceᵢ^quantityᵢ) ^ (1 / Σ quantityᵢ)` of the traded prices. -/
theorem gbce_index_spec (m : StockMarket) :
    (m.trades = [] → m.calculate_gbce_all_share_index = 0) ∧
    (totalQuantity m.trades = 0 → m.calculate_gbce_all_share_index = 0) ∧
    ((∀ t ∈ m.trades, 0 < t.traded_price) → totalQuantity m.trades ≠ 0 →
      m.calculate_gbce_all_share_index =
        Real.exp (logSum m.trades / ((totalQuantity m.trades : ℤ) : ℝ)) ∧
      m.calculate_gbce_all_share_index = weightedGeometricMean m.trades) := by
  refine ⟨?_, ?_, ?_⟩
  · intro h
    rw [StockMarket.calculate_gbce_all_share_index, if_pos h]
  · intro hQ
    rw [StockMarket.calculate_gbce_all_share_index]
    by_cases h0 : m.trades = []
    · rw [if_pos h0]
    · rw [if_neg h0]
      by_cases hbad : m.trades.any (fun t => decide (t.traded_price ≤ 0))
      · rw [if_pos hbad]
      · rw [if_neg hbad, if_neg (by simp [hQ])]
  · intro hpos hQ
    have h0 : m.trades ≠ [] := by
      intro h
      exact hQ (by simp [h, totalQuantity])
    have hbad : ¬ m.trades.any (fun t => decide (t.traded_price ≤ 0)) := by
      simp only [List.any_eq_true, decide_eq_true_eq, not_exists, not_and]
      intro t ht
      exact not_le.mpr (hpos t ht)
    have hidx : m.calculate_gbce_all_share_index =
        Real.exp (logSum m.trades / ((totalQuantity m.trades : ℤ) : ℝ)) := by
      rw [StockMarket.calculate_gbce_all_share_index, if_neg h0, if_neg hbad,
        if_pos hQ]
    refine ⟨hidx, ?_⟩
    rw [hidx, weightedGeometricMean]
    have hprodpos :
        0 < (m.trades.map (fun t => (t.traded_price : ℝ) ^ t.quantity)).prod := by
      apply List.prod_pos
      intro x hx
      rcases List.mem_map.mp hx with ⟨t, ht, rfl⟩
      have hp : (0 : ℝ) < (t.traded_price : ℝ) := by exact_mod_cast hpos t ht
      exact zpow_pos hp _
    rw [Real.rpow_def_of_pos hprodpos, log_prod_pows m.trades hpos, div_eq_mul_inv]

/-- Witness for C2: one trade of quantity 100 at price 100 gives an all
share index equal to the weighted geometric mean over that ledger. -/
theorem gbce_index_spec_witness :
    StockMarket.calculate_gbce_all_share_index
        ⟨[⟨Stock.common "TEA" (some 8) (some 100), 100, .BUY, 100, 7⟩], []⟩ =
      weightedGeometricMean
        [⟨Stock.common "TEA" (some 8) (some 100), 100, .BUY, 100, 7⟩] :=
  ((gbce_index_spec
        ⟨[⟨Stock.common "TEA" (some 8) (some 100), 100, .BUY, 100, 7⟩], []⟩).2.2
      (by decide) (by decide)).2
